import Mathlib

/-!
# Mocker: the request handler of `src/proxy.js`

A shallow embedding of the `onRequest` handler of the interception proxy
(`src/proxy.js`) and of the rule store it reads (`global.mockSettings`,
`src/main.js`), followed by theorems about rule matching, the liveness probe,
the synthetic response and forwarding.

Conventions of the embedding:

* a JavaScript string is a list of characters (`JsString`);
* the handler mutates `ctx` and calls into the runtime (`setHeader`, `end`,
  `setTimeout`, `callback`, the logger); here it is a function from `World` to
  `World`, where a `World` records `ctx` together with every such call, in order;
* `String.prototype.toUpperCase` is a built-in with a large Unicode table; the
  handler takes it as the parameter `toUpperCase`, and every theorem holds for
  any such function;
* the runtime checks of `setHeader` (the name is an HTTP token, the value has
  no forbidden character) and of `end` (the status code is in 100..999) are
  part of the embedding: a call that fails them throws, the exception leaves
  the handler, and the statements after it are not run; a `World` records the
  calls that returned and the exception that was not caught.
-/

namespace Mocker

/-! ## JavaScript values and string built-ins -/

/-- A JavaScript string, as the list of its characters. -/
abbrev JsString := List Char

/-- The JSON-shaped values a field read from `settings.json` can hold, with
`undefined` for a missing property. -/
inductive JsValue where
  | undefined
  | null
  | boolean (b : Bool)
  | number (n : Int)
  | string (s : JsString)
  deriving DecidableEq, Repr

/-- Truthiness of a string: exactly the non-empty strings are truthy. -/
def truthy (s : JsString) : Bool := !s.isEmpty

/-- Template-literal conversion of a value that may be `undefined`. -/
def templateString : Option JsString → JsString
  | none => "undefined".toList
  | some s => s

/-- The characters removed by `String.prototype.trim`: ECMAScript WhiteSpace
(TAB, VT, FF, SP, NBSP, ZWNBSP and the Unicode space separators) and
LineTerminator (LF, CR, LS, PS). -/
def isWhiteSpace (c : Char) : Bool :=
  let n := c.toNat
  n == 0x09 || n == 0x0A || n == 0x0B || n == 0x0C || n == 0x0D || n == 0x20 ||
  n == 0xA0 || n == 0x1680 || (0x2000 ≤ n && n ≤ 0x200A) || n == 0x2028 ||
  n == 0x2029 || n == 0x202F || n == 0x205F || n == 0x3000 || n == 0xFEFF

/-- Removal of leading white space. -/
def trimStart (s : JsString) : JsString := s.dropWhile isWhiteSpace

/-- Removal of trailing white space. -/
def trimEnd (s : JsString) : JsString := (s.reverse.dropWhile isWhiteSpace).reverse

/-- The built-in `String.prototype.trim`. -/
def trim (s : JsString) : JsString := trimEnd (trimStart s)

/-- The built-in `String.prototype.split` for a separator of one character:
the pieces between the separators, in order; never the empty array. -/
def split (sep : Char) : JsString → List JsString
  | [] => [[]]
  | c :: cs =>
    if c = sep then [] :: split sep cs
    else
      match split sep cs with
      | [] => [[c]]
      | piece :: rest => (c :: piece) :: rest

/-- The search loop of `indexOf`: the first position at or after `k` (counted
from the start of the whole string) where `searchString` occurs, or `-1`. -/
def indexOfFrom (searchString : JsString) : JsString → Nat → Int
  | [], k => if searchString.isEmpty then (k : Int) else -1
  | c :: cs, k =>
    if searchString.isPrefixOf (c :: cs) then (k : Int)
    else indexOfFrom searchString cs (k + 1)

/-- The built-in `String.prototype.indexOf`: the smallest index at which
`searchString` occurs in `s`, or `-1` when it does not occur. -/
def indexOf (s searchString : JsString) : Int := indexOfFrom searchString s 0

/-- Upper-casing of the ASCII letters only; an instance of the `toUpperCase`
parameter used to evaluate the handler on concrete requests. -/
def asciiUpperCase (s : JsString) : JsString := s.map Char.toUpper

/-- Lower-casing of the ASCII letters, which is what `toLowerCase` does on an
HTTP token. -/
def asciiLowerCase (s : JsString) : JsString := s.map Char.toLower

/-- The bytes of `new Buffer(string)`: the UTF-8 encoding of the string. -/
def newBuffer (s : JsString) : List UInt8 := s.flatMap String.utf8EncodeChar

/-! ## Data model -/

/-- One element of `global.mockSettings`, with the properties the handler reads. -/
structure Rule where
  uri : JsString
  method : JsString
  active : JsValue
  code : Nat
  mime : JsString
  headers : Option JsString
  body : JsString
  delay : Nat
  deriving DecidableEq, Repr

/-- The socket of a request: `request.connection`. -/
structure Connection where
  encrypted : Bool
  deriving DecidableEq, Repr

/-- The two properties of `request.headers` the handler reads; `none` is a
header that the request does not carry. -/
structure IncomingHeaders where
  host : Option JsString
  xForwardedProto : Option JsString
  deriving DecidableEq, Repr

/-- An incoming request, `ctx.clientToProxyRequest`. -/
structure Request where
  connection : Connection
  headers : IncomingHeaders
  url : JsString
  method : JsString
  deriving DecidableEq, Repr

/-- The argument of `response.end`: a string or a buffer of bytes. -/
inductive Chunk where
  | text (s : JsString)
  | buffer (bytes : List UInt8)
  deriving DecidableEq, Repr

/-- The client response, `ctx.proxyToClientResponse`: its `statusCode`
property and the calls made on it that returned, each list in call order. -/
structure ServerResponse where
  statusCode : Nat
  setHeaderCalls : List (JsString × JsString)
  endCalls : List Chunk
  deriving DecidableEq, Repr

/-- A response as the runtime hands it to the handler: status 200, no header
set, not ended. -/
def ServerResponse.fresh : ServerResponse :=
  { statusCode := 200, setHeaderCalls := [], endCalls := [] }

/-- The exceptions the runtime throws from `setHeader` and `end`: a header
name that is not an HTTP token, a header value with a character that may not
appear in one, a status code outside 100..999. -/
inductive Thrown where
  | invalidHeaderName (name : JsString)
  | invalidHeaderValue (name value : JsString)
  | invalidStatusCode (code : Nat)
  deriving DecidableEq, Repr

/-- How a call on the response comes back: it returns, with the response as
the call left it, or it throws and leaves the response as it was. -/
inductive Outcome where
  | returned (res : ServerResponse)
  | threw (error : Thrown)
  deriving DecidableEq, Repr

/-- The characters of an HTTP token: letters, digits and the fifteen
punctuation marks of the grammar of header names (listed by code). -/
def isTokenChar (c : Char) : Bool :=
  let n := c.toNat
  (0x30 ≤ n && n ≤ 0x39) || (0x41 ≤ n && n ≤ 0x5A) || (0x61 ≤ n && n ≤ 0x7A) ||
  n == 0x21 || n == 0x23 || n == 0x24 || n == 0x25 || n == 0x26 || n == 0x27 ||
  n == 0x2A || n == 0x2B || n == 0x2D || n == 0x2E || n == 0x5E || n == 0x5F ||
  n == 0x60 || n == 0x7C || n == 0x7E

/-- The check `setHeader` makes on a name: a non-empty HTTP token. -/
def validHeaderName (name : JsString) : Bool := !name.isEmpty && name.all isTokenChar

/-- The characters `setHeader` admits in a value: TAB, the printable ASCII
characters and the codes 0x80 to 0xFF. -/
def isHeaderValueChar (c : Char) : Bool :=
  let n := c.toNat
  n == 0x09 || (0x20 ≤ n && n ≤ 0x7E) || (0x80 ≤ n && n ≤ 0xFF)

/-- The check `setHeader` makes on a value. -/
def validHeaderValue (value : JsString) : Bool := value.all isHeaderValueChar

/-- The call `response.setHeader(name, value)`: the runtime checks the name,
then the value, and throws on a bad one; otherwise the header is set. -/
def ServerResponse.setHeader (res : ServerResponse) (name value : JsString) : Outcome :=
  if validHeaderName name then
    if validHeaderValue value then
      Outcome.returned { res with setHeaderCalls := res.setHeaderCalls ++ [(name, value)] }
    else Outcome.threw (Thrown.invalidHeaderValue name value)
  else Outcome.threw (Thrown.invalidHeaderName name)

/-- The call `response.end(chunk)`: the runtime writes the head with the
status code of the response, and throws when that is not in 100..999. -/
def ServerResponse.endWith (res : ServerResponse) (chunk : Chunk) : Outcome :=
  if 100 ≤ res.statusCode ∧ res.statusCode ≤ 999 then
    Outcome.returned { res with endCalls := res.endCalls ++ [chunk] }
  else Outcome.threw (Thrown.invalidStatusCode res.statusCode)

/-- The header the response carries under `name`: the runtime keeps one value
per lower-cased name and a later `setHeader` replaces an earlier one, so it is
the value of the last call whose name equals `name` ignoring ASCII case. -/
def ServerResponse.getHeader (res : ServerResponse) (name : JsString) : Option JsString :=
  (res.setHeaderCalls.reverse.find?
    (fun call => asciiLowerCase call.1 == asciiLowerCase name)).map Prod.snd

/-- The per-request context of the proxy library, with the parts the handler
touches: the request, the client response, the `rejectUnauthorized` property
of `proxyToServerRequestOptions` (`none` while unset) and whether
`ctx.use(Proxy.gunzip)` was called. -/
structure Ctx where
  clientToProxyRequest : Request
  proxyToClientResponse : ServerResponse
  rejectUnauthorized : Option Bool
  gunzip : Bool
  deriving DecidableEq, Repr

/-- A call of `logger.info`: a message, or a message followed by a rule. -/
inductive LogEntry where
  | info (message : JsString)
  | infoRule (message : JsString) (rule : Rule)
  deriving DecidableEq, Repr

/-- A pending `setTimeout(() => response.end(new Buffer(responseBody)), delay)`. -/
structure Timer where
  delay : Nat
  responseBody : JsString
  deriving DecidableEq, Repr

/-- Everything the handler can change: the context, the log, the pending
timers, the number of calls of the forwarding callback, and the exception that
left the handler uncaught, if one did. -/
structure World where
  ctx : Ctx
  log : List LogEntry
  timers : List Timer
  callbackCalls : Nat
  uncaught : Option Thrown
  deriving DecidableEq, Repr

/-- The world at the start of a request: a fresh response, nothing logged,
no timer, the callback not called, nothing thrown. -/
def World.start (req : Request) : World :=
  { ctx := { clientToProxyRequest := req, proxyToClientResponse := ServerResponse.fresh,
             rejectUnauthorized := none, gunzip := false },
    log := [], timers := [], callbackCalls := 0, uncaught := none }

/-- A statement of the handler that calls into the client response. It is not
run once an exception is on its way out of the handler; when the call throws,
the exception is recorded and the response stays as it was. -/
def World.call (w : World) (f : ServerResponse → Outcome) : World :=
  match w.uncaught with
  | some _ => w
  | none =>
    match f w.ctx.proxyToClientResponse with
    | Outcome.returned res => { w with ctx := { w.ctx with proxyToClientResponse := res } }
    | Outcome.threw error => { w with uncaught := some error }

/-- A statement of the handler that cannot throw. It is not run once an
exception is on its way out of the handler. -/
def World.run (w : World) (f : World → World) : World :=
  match w.uncaught with
  | some _ => w
  | none => f w

/-- The timer callback of the mock branch runs: the response is ended with the
bytes of the body, unless `end` throws. -/
def Timer.fire (t : Timer) (res : ServerResponse) : ServerResponse :=
  match res.endWith (Chunk.buffer (newBuffer t.responseBody)) with
  | Outcome.returned ended => ended
  | Outcome.threw _ => res

/-! ## `src/main.js` -/

/-- The rule store at start-up: `global.mockSettings = []`. -/
def initialMockSettings : List Rule := []

/-! ## `src/proxy.js` -/

/-- The host and port of the liveness probe. -/
def livenessHost : JsString := "127.0.0.1:2018".toList

/-- Reconstruction of the full URL of a request. -/
def getFullUrl (request : Request) : JsString :=
  let secure := request.connection.encrypted ||
    decide (request.headers.xForwardedProto = some "https".toList)
  "http".toList ++ (if secure then "s".toList else []) ++ "://".toList ++
    templateString request.headers.host ++ request.url

/-- The predicate passed to `global.mockSettings.find`. -/
def ruleMatches (toUpperCase : JsString → JsString) (fullUrl : JsString) (req : Request)
    (t : Rule) : Bool :=
  decide (indexOf fullUrl t.uri ≥ 0)
    && (decide (t.method = "ALL".toList) || decide (toUpperCase t.method = toUpperCase req.method))
    && decide (t.active = JsValue.string "1".toList)

/-- The rule selected for a request: `global.mockSettings.find(...)`. -/
def findOne (toUpperCase : JsString → JsString) (mockSettings : List Rule) (req : Request) :
    Option Rule :=
  mockSettings.find? (ruleMatches toUpperCase (getFullUrl req) req)

/-- The body of `headerArr.forEach`: one line of the headers block. -/
def headerItem (res : ServerResponse) (item : JsString) : Outcome :=
  let header := split ':' item
  let key := header[0]?
  let value := header[1]?
  match key with
  | none => Outcome.returned res
  | some key =>
    let key := trim key
    if truthy key then
      let value :=
        match value with
        | some v => if truthy v then trim v else []
        | none => []
      res.setHeader key value
    else Outcome.returned res

/-- The loop `headerArr.forEach(...)`: the lines in turn, up to the first one
whose `setHeader` throws. -/
def forEachItem (headerArr : List JsString) (w : World) : World :=
  headerArr.foldl (fun w item => w.call (fun res => headerItem res item)) w

/-- The headers block of a rule is applied: nothing when the block is missing
or empty, otherwise the loop over its lines. -/
def applyResponseHeaders (responseHeaders : Option JsString) (w : World) : World :=
  match responseHeaders with
  | none => w
  | some block =>
    if truthy block then forEachItem (split '\n' block) w else w

/-- The mock branch of the handler, for the rule that was found. An exception
thrown by `setHeader` leaves the handler: the statements after it, the
`setTimeout` included, are not run. -/
def mockResponse (rule : Rule) (w : World) : World :=
  let w := { w with log := w.log ++ [LogEntry.infoRule "匹配到规则：".toList rule] }
  let responseCode := rule.code
  let responseType := rule.mime
  let responseHeaders := rule.headers
  let responseBody := rule.body
  let responseDelay := rule.delay
  let w := { w with ctx := { w.ctx with gunzip := true } }
  let w := w.call (fun res => Outcome.returned { res with statusCode := responseCode })
  let w := w.call (fun res => res.setHeader "mock-data".toList "true".toList)
  let w := w.call (fun res => res.setHeader "content-type".toList responseType)
  let w := w.run (applyResponseHeaders responseHeaders)
  w.run (fun w =>
    { w with timers := w.timers ++ [{ delay := responseDelay, responseBody := responseBody }] })

/-- The forwarding branch of the handler. -/
def forward (w : World) : World :=
  let w := { w with ctx := { w.ctx with rejectUnauthorized := some false } }
  { w with callbackCalls := w.callbackCalls + 1 }

/-- The handler registered with `proxy.onRequest`, run on the rule store
`mockSettings`. -/
def onRequest (toUpperCase : JsString → JsString) (mockSettings : List Rule) (w : World) :
    World :=
  let req := w.ctx.clientToProxyRequest
  let fullUrl := getFullUrl req
  let w := { w with log := w.log ++
    [LogEntry.info ("[PROXY] ".toList ++ toUpperCase req.method ++ " ".toList ++ fullUrl)] }
  if w.ctx.clientToProxyRequest.headers.host = some livenessHost then
    w.call (fun res => res.endWith (Chunk.text "Mock Server is OK!".toList))
  else
    match findOne toUpperCase mockSettings req with
    | some rule => mockResponse rule w
    | none => forward w

/-! ## The claims in the words of the specification -/

/-- The match condition as the specification words it: the rule is active, its
fragment occurs in the full URL, and its method is the wildcard or equals the
method of the request up to case. -/
def SpecMatches (toUpperCase : JsString → JsString) (req : Request) (rule : Rule) : Prop :=
  rule.uri <:+: getFullUrl req ∧
  (rule.method = "ALL".toList ∨ toUpperCase rule.method = toUpperCase req.method) ∧
  rule.active = JsValue.string "1".toList

/-- The text of a line before its first colon (the whole line without one). -/
def beforeColon (item : JsString) : JsString := item.takeWhile (· ≠ ':')

/-- The text of a line after its first colon (empty without one). -/
def afterColon (item : JsString) : JsString := (item.dropWhile (· ≠ ':')).drop 1

/-- The header a line of the headers block stands for, read off the text of
the line: none when the name is empty after trimming, otherwise the trimmed
name with the trimmed text between the first colon and the next one. -/
def lineHeader (item : JsString) : Option (JsString × JsString) :=
  if trim (beforeColon item) = [] then none
  else some (trim (beforeColon item), trim ((afterColon item).takeWhile (· ≠ ':')))

/-- The lines of the headers block of a rule (none for a missing block). -/
def headerLines (rule : Rule) : List JsString :=
  match rule.headers with
  | none => []
  | some block => split '\n' block

/-- A line the runtime lets pass: it stands for no header, or for one whose
name and value `setHeader` admits. -/
def lineAccepted (item : JsString) : Bool :=
  match lineHeader item with
  | none => true
  | some kv => validHeaderName kv.1 && validHeaderValue kv.2

/-- A rule the runtime lets pass: its mime is an admissible header value and
so is every line of its headers block. -/
def ruleAccepted (rule : Rule) : Bool :=
  validHeaderValue rule.mime && (headerLines rule).all lineAccepted

/-- The headers a list of lines sets: those of the lines in order, up to the
first line that is not accepted. -/
def acceptedHeaders : List JsString → List (JsString × JsString)
  | [] => []
  | item :: rest =>
    match lineHeader item with
    | none => acceptedHeaders rest
    | some kv =>
      if validHeaderName kv.1 && validHeaderValue kv.2 then kv :: acceptedHeaders rest else []

/-- The exception a list of lines ends in: that of the first line that is not
accepted, none when all are. -/
def rejection : List JsString → Option Thrown
  | [] => none
  | item :: rest =>
    match lineHeader item with
    | none => rejection rest
    | some kv =>
      if validHeaderName kv.1 then
        if validHeaderValue kv.2 then rejection rest
        else some (Thrown.invalidHeaderValue kv.1 kv.2)
      else some (Thrown.invalidHeaderName kv.1)

/-- The client response once the pending timers of the world have fired, in
the order they were set. -/
def World.settled (w : World) : ServerResponse :=
  w.timers.foldl (fun res t => t.fire res) w.ctx.proxyToClientResponse

/-! ## Sample rules and requests -/

/-- The request of the example of the specification: a plain GET of
`http://x.com/api/user/42`. -/
def sampleRequest : Request :=
  { connection := { encrypted := false },
    headers := { host := some "x.com".toList, xForwardedProto := none },
    url := "/api/user/42".toList, method := "GET".toList }

/-- A request to the liveness probe whose URL also contains `/api/user`. -/
def probeRequest : Request :=
  { connection := { encrypted := false },
    headers := { host := some "127.0.0.1:2018".toList, xForwardedProto := none },
    url := "/api/user".toList, method := "GET".toList }

/-- The rule of the example of the specification. -/
def sampleRule : Rule :=
  { uri := "/api/user".toList, method := "GET".toList, active := JsValue.string "1".toList,
    code := 200, mime := "application/json".toList, headers := none,
    body := "\x7b\"id\":1\x7d".toList, delay := 0 }

/-- The sample rule switched off. -/
def inactiveRule : Rule := { sampleRule with active := JsValue.string "0".toList }

/-- The sample rule with the headers block of the example of the specification. -/
def specHeadersRule : Rule :=
  { sampleRule with headers := some "X-Foo: bar\nBad Header Without Colon\nX-Empty:".toList }

/-- The sample rule with a headers block that names the marker header. -/
def markerRule : Rule := { sampleRule with headers := some "mock-data: false".toList }

/-- The sample rule with a headers block that names the content type. -/
def typedRule : Rule := { sampleRule with headers := some "Content-Type: text/plain".toList }

/-- The sample rule with a header whose value contains colons. -/
def locationRule : Rule := { sampleRule with headers := some "Location: http://x.com/a".toList }

/-- The sample rule with a line that is a bare token, without a colon. -/
def bareTokenRule : Rule := { sampleRule with headers := some "X-Foo: bar\nX-Bare".toList }

/-- The sample rule with a line whose name has a blank in it and whose value
is empty. -/
def blankNameRule : Rule := { sampleRule with headers := some "X-Foo: bar\nX Empty:".toList }

/-- The sample rule with a block of three lines: a header, a line of blanks,
a header with an empty value. -/
def blankLineRule : Rule := { sampleRule with headers := some "X-Foo: bar\n   \nX-Empty:".toList }

/-- The sample rule with a block whose second line names the marker header in
capitals. -/
def markerLastRule : Rule :=
  { sampleRule with headers := some "X-Foo: bar\nMock-Data: off".toList }

/-- The sample rule with a block whose lines name the content type twice. -/
def typedTwiceRule : Rule :=
  { sampleRule with
    headers := some "Content-Type: text/html\nX-Foo: bar\ncontent-type: text/plain".toList }

/-- The sample rule with a status code the runtime does not write. -/
def zeroCodeRule : Rule := { sampleRule with code := 0 }

/-! ## Lemmas on the string built-ins -/

theorem indexOfFrom_nonneg_iff (pat s : JsString) (k : Nat) :
    0 ≤ indexOfFrom pat s k ↔ pat <:+: s := by
  induction s generalizing k with
  | nil =>
    cases pat with
    | nil => simp [indexOfFrom]
    | cons a as => simp [indexOfFrom]
  | cons c cs ih =>
    unfold indexOfFrom
    by_cases h : pat.isPrefixOf (c :: cs) = true
    · rw [if_pos h]
      have hp : pat <+: c :: cs := List.isPrefixOf_iff_prefix.mp h
      constructor
      · intro _; exact hp.isInfix
      · intro _; exact Int.ofNat_nonneg k
    · rw [if_neg h, ih, List.infix_cons_iff]
      have hp : ¬ pat <+: c :: cs := fun hp => h (List.isPrefixOf_iff_prefix.mpr hp)
      constructor
      · intro hi; exact Or.inr hi
      · intro hi
        rcases hi with hi | hi
        · exact absurd hi hp
        · exact hi

theorem indexOf_nonneg_iff (s pat : JsString) : indexOf s pat ≥ 0 ↔ pat <:+: s :=
  indexOfFrom_nonneg_iff pat s 0

theorem split_ne_nil (sep : Char) (s : JsString) : split sep s ≠ [] := by
  cases s with
  | nil => simp [split]
  | cons c cs =>
    unfold split
    split_ifs
    · simp
    · cases split sep cs <;> simp

theorem split_head (sep : Char) (s : JsString) :
    (split sep s)[0]? = some (s.takeWhile (· ≠ sep)) := by
  induction s with
  | nil => simp [split]
  | cons c cs ih =>
    unfold split
    by_cases h : c = sep
    · simp [h]
    · rw [if_neg h]
      cases hs : split sep cs with
      | nil => exact absurd hs (split_ne_nil sep cs)
      | cons piece rest =>
        rw [hs] at ih
        simp at ih
        simp [h, ih]

theorem split_second (sep : Char) (s : JsString) :
    (split sep s)[1]? =
      if sep ∈ s then some (((s.dropWhile (· ≠ sep)).drop 1).takeWhile (· ≠ sep)) else none := by
  induction s with
  | nil => simp [split]
  | cons c cs ih =>
    unfold split
    by_cases h : c = sep
    · subst h
      simp [split_head]
    · rw [if_neg h]
      have hne : sep ≠ c := fun e => h e.symm
      cases hs : split sep cs with
      | nil => exact absurd hs (split_ne_nil sep cs)
      | cons piece rest =>
        rw [hs] at ih
        simp [h, hne] at ih ⊢
        exact ih

theorem trim_nil : trim [] = [] := rfl

theorem truthy_iff (s : JsString) : truthy s = true ↔ s ≠ [] := by
  cases s <;> simp [truthy]

/-- The body of the loop over the lines does what `lineHeader` reads off the
line. -/
theorem headerItem_eq (res : ServerResponse) (item : JsString) :
    headerItem res item =
      match lineHeader item with
      | none => Outcome.returned res
      | some kv => res.setHeader kv.1 kv.2 := by
  unfold headerItem lineHeader beforeColon afterColon
  simp only [split_head, split_second]
  generalize List.takeWhile (· ≠ ':') item = name
  by_cases hk : trim name = []
  · have ht : truthy (trim name) = false := by rw [hk]; rfl
    rw [if_pos hk]
    simp only [ht, Bool.false_eq_true, if_false]
  · have ht : truthy (trim name) = true := (truthy_iff _).mpr hk
    simp only [ht, if_true, if_neg hk]
    by_cases hc : ':' ∈ item
    · simp only [if_pos hc]
      generalize List.takeWhile (· ≠ ':') (List.drop 1 (List.dropWhile (· ≠ ':') item)) = v
      cases v with
      | nil => rfl
      | cons a as => rfl
    · have hd : List.dropWhile (· ≠ ':') item = [] := by
        rw [List.dropWhile_eq_nil_iff]
        intro x hx
        have : x ≠ ':' := fun e => hc (e ▸ hx)
        simpa using this
      simp only [if_neg hc, hd]
      rfl

/-! ## Lemmas on the handler -/

theorem find?_eq_some_iff_index {α : Type} (p : α → Bool) (l : List α) (b : α) :
    l.find? p = some b ↔
      ∃ i : Nat, l[i]? = some b ∧ p b = true ∧
        ∀ (j : Nat) (a : α), j < i → l[j]? = some a → p a = false := by
  induction l with
  | nil => simp
  | cons x xs ih =>
    by_cases hx : p x = true
    · rw [List.find?_cons_of_pos _ hx]
      constructor
      · intro h
        have hb : x = b := Option.some.inj h
        subst hb
        exact ⟨0, by simp, hx, fun j a hj _ => absurd hj (Nat.not_lt_zero j)⟩
      · rintro ⟨i, hi, _, hmin⟩
        cases i with
        | zero => simpa using hi
        | succ k =>
          have := hmin 0 x (Nat.succ_pos k) (by simp)
          rw [hx] at this
          exact absurd this (by simp)
    · rw [List.find?_cons_of_neg _ hx, ih]
      have hxf : p x = false := by simpa using hx
      constructor
      · rintro ⟨i, hi, hb, hmin⟩
        refine ⟨i + 1, by simpa using hi, hb, ?_⟩
        intro j a hj ha
        cases j with
        | zero =>
          have : x = a := by simpa using ha
          rw [← this]; exact hxf
        | succ m => exact hmin m a (by omega) (by simpa using ha)
      · rintro ⟨i, hi, hb, hmin⟩
        cases i with
        | zero =>
          have : x = b := by simpa using hi
          rw [this] at hx
          exact absurd hb hx
        | succ k =>
          refine ⟨k, by simpa using hi, hb, ?_⟩
          intro j a hj ha
          exact hmin (j + 1) a (by omega) (by simpa using ha)

/-- The predicate of the code holds exactly when the match condition of the
specification does. -/
theorem ruleMatches_iff (toUpperCase : JsString → JsString) (req : Request) (t : Rule) :
    ruleMatches toUpperCase (getFullUrl req) req t = true ↔ SpecMatches toUpperCase req t := by
  unfold ruleMatches SpecMatches
  simp only [Bool.and_eq_true, Bool.or_eq_true, decide_eq_true_eq, indexOf_nonneg_iff]
  tauto

theorem ruleMatches_false_iff (toUpperCase : JsString → JsString) (req : Request) (t : Rule) :
    ruleMatches toUpperCase (getFullUrl req) req t = false ↔ ¬ SpecMatches toUpperCase req t := by
  rw [← ruleMatches_iff, Bool.not_eq_true]

theorem findOne_eq_none_iff (toUpperCase : JsString → JsString) (mockSettings : List Rule)
    (req : Request) :
    findOne toUpperCase mockSettings req = none ↔
      ∀ rule ∈ mockSettings, ¬ SpecMatches toUpperCase req rule := by
  unfold findOne
  rw [List.find?_eq_none]
  constructor
  · intro h rule hr hm
    exact h rule hr ((ruleMatches_iff toUpperCase req rule).mpr hm)
  · intro h rule hr hm
    exact h rule hr ((ruleMatches_iff toUpperCase req rule).mp hm)

theorem findOne_matches (toUpperCase : JsString → JsString) (mockSettings : List Rule)
    (req : Request) (rule : Rule) (h : findOne toUpperCase mockSettings req = some rule) :
    rule ∈ mockSettings ∧ SpecMatches toUpperCase req rule := by
  unfold findOne at h
  exact ⟨List.mem_of_find?_eq_some h, (ruleMatches_iff toUpperCase req rule).mp (List.find?_some h)⟩

/-- The handler on the liveness probe. -/
theorem onRequest_liveness (toUpperCase : JsString → JsString) (mockSettings : List Rule)
    (req : Request) (h : req.headers.host = some livenessHost) :
    onRequest toUpperCase mockSettings (World.start req) =
      { ctx := { clientToProxyRequest := req,
                 proxyToClientResponse :=
                   { statusCode := 200, setHeaderCalls := [],
                     endCalls := [Chunk.text "Mock Server is OK!".toList] },
                 rejectUnauthorized := none, gunzip := false },
        log := [LogEntry.info ("[PROXY] ".toList ++ toUpperCase req.method ++ " ".toList ++
          getFullUrl req)],
        timers := [], callbackCalls := 0, uncaught := none } := by
  simp [onRequest, World.start, World.call, ServerResponse.fresh, ServerResponse.endWith, h]

/-- The handler on a request that no rule matches. -/
theorem onRequest_forward (toUpperCase : JsString → JsString) (mockSettings : List Rule)
    (req : Request) (hHost : req.headers.host ≠ some livenessHost)
    (hFind : findOne toUpperCase mockSettings req = none) :
    onRequest toUpperCase mockSettings (World.start req) =
      { ctx := { clientToProxyRequest := req, proxyToClientResponse := ServerResponse.fresh,
                 rejectUnauthorized := some false, gunzip := false },
        log := [LogEntry.info ("[PROXY] ".toList ++ toUpperCase req.method ++ " ".toList ++
          getFullUrl req)],
        timers := [], callbackCalls := 1, uncaught := none } := by
  simp [onRequest, World.start, forward, hHost, hFind]

theorem lineHeader_nil : lineHeader [] = none := rfl

theorem forEachItem_of_uncaught (lines : List JsString) (w : World) (e : Thrown)
    (h : w.uncaught = some e) : forEachItem lines w = w := by
  induction lines with
  | nil => rfl
  | cons item rest ih =>
    have hstep : w.call (fun res => headerItem res item) = w := by
      unfold World.call
      rw [h]
    unfold forEachItem at ih ⊢
    rw [List.foldl_cons, hstep, ih]

/-- One turn of the loop, on a world in which nothing was thrown yet. -/
theorem headerItem_step (w : World) (item : JsString) (h : w.uncaught = none) :
    w.call (fun res => headerItem res item) =
      match lineHeader item with
      | none => w
      | some kv =>
        if validHeaderName kv.1 then
          if validHeaderValue kv.2 then
            { w with ctx := { w.ctx with
                proxyToClientResponse := { w.ctx.proxyToClientResponse with
                  setHeaderCalls := w.ctx.proxyToClientResponse.setHeaderCalls ++ [kv] } } }
          else { w with uncaught := some (Thrown.invalidHeaderValue kv.1 kv.2) }
        else { w with uncaught := some (Thrown.invalidHeaderName kv.1) } := by
  obtain ⟨⟨req, res, ru, gz⟩, log, timers, cb, unc⟩ := w
  simp only at h
  subst h
  unfold World.call
  simp only [headerItem_eq]
  cases hl : lineHeader item with
  | none => rfl
  | some kv =>
    simp only
    unfold ServerResponse.setHeader
    by_cases hn : validHeaderName kv.1 = true
    · by_cases hv : validHeaderValue kv.2 = true
      · simp only [hn, hv, if_true]
      · have hv2 : validHeaderValue kv.2 = false := by simpa using hv
        simp only [hn, hv2, if_true, Bool.false_eq_true, if_false]
    · have hn2 : validHeaderName kv.1 = false := by simpa using hn
      simp only [hn2, Bool.false_eq_true, if_false]

theorem forEachItem_cons (item : JsString) (rest : List JsString) (w : World) :
    forEachItem (item :: rest) w =
      forEachItem rest (w.call (fun res => headerItem res item)) := rfl

/-- The loop over the lines sets the headers of the lines up to the first one
that the runtime rejects, records that exception, and changes nothing else. -/
theorem forEachItem_eq (lines : List JsString) (w : World) (h : w.uncaught = none) :
    forEachItem lines w =
      { w with
        ctx := { w.ctx with
          proxyToClientResponse := { w.ctx.proxyToClientResponse with
            setHeaderCalls :=
              w.ctx.proxyToClientResponse.setHeaderCalls ++ acceptedHeaders lines } },
        uncaught := rejection lines } := by
  induction lines generalizing w with
  | nil =>
    obtain ⟨⟨req, res, ru, gz⟩, log, timers, cb, unc⟩ := w
    simp only at h
    subst h
    simp [forEachItem, acceptedHeaders, rejection]
  | cons item rest ih =>
    rw [forEachItem_cons, headerItem_step w item h]
    unfold acceptedHeaders rejection
    cases hl : lineHeader item with
    | none =>
      simp only
      rw [ih w h]
    | some kv =>
      simp only
      by_cases hn : validHeaderName kv.1 = true
      · by_cases hv : validHeaderValue kv.2 = true
        · simp only [hn, hv, if_true, Bool.and_self]
          refine (ih _ ?_).trans ?_
          · exact h
          · simp
        · have hv2 : validHeaderValue kv.2 = false := by simpa using hv
          simp only [hn, hv2, if_true, if_false, Bool.and_false, Bool.false_eq_true]
          rw [forEachItem_of_uncaught rest _ _ rfl]
          simp
      · have hn2 : validHeaderName kv.1 = false := by simpa using hn
        simp only [hn2, if_false, Bool.false_and, Bool.false_eq_true]
        rw [forEachItem_of_uncaught rest _ _ rfl]
        simp

theorem applyResponseHeaders_eq (rule : Rule) (w : World) (h : w.uncaught = none) :
    applyResponseHeaders rule.headers w = forEachItem (headerLines rule) w := by
  unfold applyResponseHeaders headerLines
  cases hh : rule.headers with
  | none => rfl
  | some block =>
    cases block with
    | nil =>
      obtain ⟨⟨req, res, ru, gz⟩, log, timers, cb, unc⟩ := w
      simp only at h
      subst h
      rfl
    | cons c cs => rfl

theorem validHeaderName_marker : validHeaderName "mock-data".toList = true := by decide

theorem validHeaderValue_true : validHeaderValue "true".toList = true := by decide

theorem validHeaderName_contentType : validHeaderName "content-type".toList = true := by decide

/-- The handler on a request for which a rule was found, when the mime of the
rule is an admissible header value. -/
theorem onRequest_mock (toUpperCase : JsString → JsString) (mockSettings : List Rule)
    (req : Request) (rule : Rule) (hHost : req.headers.host ≠ some livenessHost)
    (hFind : findOne toUpperCase mockSettings req = some rule)
    (hmime : validHeaderValue rule.mime = true) :
    onRequest toUpperCase mockSettings (World.start req) =
      { ctx := { clientToProxyRequest := req,
                 proxyToClientResponse :=
                   { statusCode := rule.code,
                     setHeaderCalls :=
                       [("mock-data".toList, "true".toList), ("content-type".toList, rule.mime)] ++
                         acceptedHeaders (headerLines rule),
                     endCalls := [] },
                 rejectUnauthorized := none, gunzip := true },
        log := [LogEntry.info ("[PROXY] ".toList ++ toUpperCase req.method ++ " ".toList ++
                  getFullUrl req),
                LogEntry.infoRule "匹配到规则：".toList rule],
        timers :=
          match rejection (headerLines rule) with
          | none => [{ delay := rule.delay, responseBody := rule.body }]
          | some _ => [],
        callbackCalls := 0,
        uncaught := rejection (headerLines rule) } := by
  unfold onRequest
  simp only [World.start, hHost, if_false, hFind]
  unfold mockResponse
  simp only [World.call, ServerResponse.setHeader, validHeaderName_marker,
    validHeaderValue_true, validHeaderName_contentType, hmime, if_true, World.run,
    ServerResponse.fresh]
  rw [applyResponseHeaders_eq rule _ rfl, forEachItem_eq _ _ rfl]
  cases hr : rejection (headerLines rule) <;> simp

/-- The handler on a request for which a rule was found, when the mime of the
rule is not an admissible header value: the second `setHeader` throws. -/
theorem onRequest_mock_bad_mime (toUpperCase : JsString → JsString) (mockSettings : List Rule)
    (req : Request) (rule : Rule) (hHost : req.headers.host ≠ some livenessHost)
    (hFind : findOne toUpperCase mockSettings req = some rule)
    (hmime : validHeaderValue rule.mime = false) :
    onRequest toUpperCase mockSettings (World.start req) =
      { ctx := { clientToProxyRequest := req,
                 proxyToClientResponse :=
                   { statusCode := rule.code,
                     setHeaderCalls := [("mock-data".toList, "true".toList)],
                     endCalls := [] },
                 rejectUnauthorized := none, gunzip := true },
        log := [LogEntry.info ("[PROXY] ".toList ++ toUpperCase req.method ++ " ".toList ++
                  getFullUrl req),
                LogEntry.infoRule "匹配到规则：".toList rule],
        timers := [],
        callbackCalls := 0,
        uncaught := some (Thrown.invalidHeaderValue "content-type".toList rule.mime) } := by
  unfold onRequest
  simp only [World.start, hHost, if_false, hFind]
  unfold mockResponse
  simp only [World.call, ServerResponse.setHeader, validHeaderName_marker,
    validHeaderValue_true, validHeaderName_contentType, hmime, if_true, World.run,
    ServerResponse.fresh, Bool.false_eq_true, if_false, List.nil_append]
  rfl

/-- The header carried under a name is the value of the last call for that
name. -/
theorem getHeader_of_last (res : ServerResponse) (before after : List (JsString × JsString))
    (key value name : JsString)
    (hcalls : res.setHeaderCalls = before ++ (key, value) :: after)
    (hkey : asciiLowerCase key = asciiLowerCase name)
    (hafter : ∀ call ∈ after, asciiLowerCase call.1 ≠ asciiLowerCase name) :
    res.getHeader name = some value := by
  unfold ServerResponse.getHeader
  rw [hcalls, List.reverse_append, List.reverse_cons, List.append_assoc, List.find?_append]
  have hnone : List.find? (fun call => asciiLowerCase call.1 == asciiLowerCase name)
      after.reverse = none := by
    rw [List.find?_eq_none]
    intro call hcall hm
    exact hafter call (List.mem_reverse.mp hcall) (by simpa using hm)
  rw [hnone, List.find?_append]
  have hone : List.find? (fun call => asciiLowerCase call.1 == asciiLowerCase name)
      [(key, value)] = some (key, value) := by
    simp [hkey]
  rw [hone]
  rfl

theorem lineHeader_name (item : JsString) (kv : JsString × JsString)
    (h : lineHeader item = some kv) : kv.1 = trim (beforeColon item) := by
  unfold lineHeader at h
  split_ifs at h
  rw [← Option.some.inj h]

theorem parsed_names (lines : List JsString) (name : JsString)
    (hno : ∀ item ∈ lines, asciiLowerCase (trim (beforeColon item)) ≠ name) :
    ∀ call ∈ lines.filterMap lineHeader, asciiLowerCase call.1 ≠ name := by
  intro call hcall
  rw [List.mem_filterMap] at hcall
  obtain ⟨item, hitem, hline⟩ := hcall
  rw [lineHeader_name item call hline]
  exact hno item hitem

theorem trim_of_whiteSpace (s : JsString) (h : ∀ c ∈ s, isWhiteSpace c = true) : trim s = [] := by
  unfold trim trimStart
  rw [List.dropWhile_eq_nil_iff.mpr h]
  rfl

theorem beforeColon_of_no_colon (item : JsString) (h : ':' ∉ item) : beforeColon item = item := by
  unfold beforeColon
  rw [List.takeWhile_eq_self_iff]
  intro x hx
  have : x ≠ ':' := fun e => h (e ▸ hx)
  simpa using this

theorem afterColon_of_no_colon (item : JsString) (h : ':' ∉ item) : afterColon item = [] := by
  unfold afterColon
  have hd : List.dropWhile (· ≠ ':') item = [] := by
    rw [List.dropWhile_eq_nil_iff]
    intro x hx
    have : x ≠ ':' := fun e => h (e ▸ hx)
    simpa using this
  rw [hd]
  rfl

theorem lineHeader_of_empty_name (item : JsString) (h : trim (beforeColon item) = []) :
    lineHeader item = none := by
  unfold lineHeader
  rw [if_pos h]

theorem lineHeader_of_name (item : JsString) (h : trim (beforeColon item) ≠ []) :
    lineHeader item =
      some (trim (beforeColon item), trim ((afterColon item).takeWhile (· ≠ ':'))) := by
  unfold lineHeader
  rw [if_neg h]

theorem takeWhile_of_no_colon (s : JsString) (h : ':' ∉ s) : s.takeWhile (· ≠ ':') = s := by
  rw [List.takeWhile_eq_self_iff]
  intro x hx
  have : x ≠ ':' := fun e => h (e ▸ hx)
  simpa using this

/-- Lines that are all accepted set the headers they stand for, and nothing is
thrown. -/
theorem acceptedHeaders_of_accepted (lines : List JsString)
    (h : ∀ l ∈ lines, lineAccepted l = true) :
    acceptedHeaders lines = lines.filterMap lineHeader ∧ rejection lines = none := by
  induction lines with
  | nil => exact ⟨rfl, rfl⟩
  | cons item rest ih =>
    have hrest := ih (fun l hl => h l (List.mem_cons_of_mem _ hl))
    have hitem := h item (List.mem_cons_self _ _)
    unfold lineAccepted at hitem
    unfold acceptedHeaders rejection
    cases hl : lineHeader item with
    | none =>
      simp only [List.filterMap_cons, hl]
      exact hrest
    | some kv =>
      rw [hl] at hitem
      simp only [Bool.and_eq_true] at hitem
      simp only [List.filterMap_cons, hl, hitem.1, hitem.2, Bool.and_self, if_true]
      exact ⟨by rw [hrest.1], hrest.2⟩

theorem acceptedHeaders_cons (item : JsString) (rest : List JsString) :
    acceptedHeaders (item :: rest) =
      match lineHeader item with
      | none => acceptedHeaders rest
      | some kv =>
        if validHeaderName kv.1 && validHeaderValue kv.2 then kv :: acceptedHeaders rest
        else [] := rfl

theorem rejection_cons (item : JsString) (rest : List JsString) :
    rejection (item :: rest) =
      match lineHeader item with
      | none => rejection rest
      | some kv =>
        if validHeaderName kv.1 then
          if validHeaderValue kv.2 then rejection rest
          else some (Thrown.invalidHeaderValue kv.1 kv.2)
        else some (Thrown.invalidHeaderName kv.1) := rfl

theorem acceptedHeaders_append (pre rest : List JsString)
    (h : ∀ l ∈ pre, lineAccepted l = true) :
    acceptedHeaders (pre ++ rest) = pre.filterMap lineHeader ++ acceptedHeaders rest := by
  induction pre with
  | nil => rfl
  | cons item more ih =>
    have hmore := ih (fun l hl => h l (List.mem_cons_of_mem _ hl))
    have hitem := h item (List.mem_cons_self _ _)
    unfold lineAccepted at hitem
    rw [List.cons_append, acceptedHeaders_cons]
    cases hl : lineHeader item with
    | none =>
      simp only [List.filterMap_cons, hl]
      exact hmore
    | some kv =>
      rw [hl] at hitem
      simp only at hitem
      simp only [List.filterMap_cons, hl, hitem, if_true, List.cons_append]
      rw [hmore]

theorem acceptedHeaders_skip (pre post : List JsString) (item : JsString)
    (h : lineHeader item = none) :
    acceptedHeaders (pre ++ item :: post) = acceptedHeaders (pre ++ post) ∧
    rejection (pre ++ item :: post) = rejection (pre ++ post) := by
  induction pre with
  | nil =>
    simp only [List.nil_append]
    constructor
    · rw [acceptedHeaders_cons, h]
    · rw [rejection_cons, h]
  | cons first more ih =>
    simp only [List.cons_append]
    rw [acceptedHeaders_cons, acceptedHeaders_cons, rejection_cons, rejection_cons]
    cases hl : lineHeader first with
    | none => exact ih
    | some kv =>
      simp only
      rw [ih.1, ih.2]
      exact ⟨rfl, rfl⟩

theorem ruleAccepted_iff (rule : Rule) :
    ruleAccepted rule = true ↔
      validHeaderValue rule.mime = true ∧ ∀ l ∈ headerLines rule, lineAccepted l = true := by
  unfold ruleAccepted
  rw [Bool.and_eq_true, List.all_eq_true]

/-- The handler on a request for which a rule was found that the runtime
accepts: every line that stands for a header sets it, and the timer is set. -/
theorem onRequest_mock_accepted (toUpperCase : JsString → JsString) (mockSettings : List Rule)
    (req : Request) (rule : Rule) (hHost : req.headers.host ≠ some livenessHost)
    (hFind : findOne toUpperCase mockSettings req = some rule)
    (hacc : ruleAccepted rule = true) :
    onRequest toUpperCase mockSettings (World.start req) =
      { ctx := { clientToProxyRequest := req,
                 proxyToClientResponse :=
                   { statusCode := rule.code,
                     setHeaderCalls :=
                       [("mock-data".toList, "true".toList), ("content-type".toList, rule.mime)] ++
                         (headerLines rule).filterMap lineHeader,
                     endCalls := [] },
                 rejectUnauthorized := none, gunzip := true },
        log := [LogEntry.info ("[PROXY] ".toList ++ toUpperCase req.method ++ " ".toList ++
                  getFullUrl req),
                LogEntry.infoRule "匹配到规则：".toList rule],
        timers := [{ delay := rule.delay, responseBody := rule.body }],
        callbackCalls := 0,
        uncaught := none } := by
  obtain ⟨hmime, hlines⟩ := (ruleAccepted_iff rule).mp hacc
  obtain ⟨hset, hrej⟩ := acceptedHeaders_of_accepted (headerLines rule) hlines
  rw [onRequest_mock toUpperCase mockSettings req rule hHost hFind hmime, hset, hrej]

theorem fire_setHeaderCalls (t : Timer) (res : ServerResponse) :
    (t.fire res).setHeaderCalls = res.setHeaderCalls := by
  unfold Timer.fire ServerResponse.endWith
  split_ifs <;> rfl

theorem fire_getHeader (t : Timer) (res : ServerResponse) (name : JsString) :
    (t.fire res).getHeader name = res.getHeader name := by
  unfold ServerResponse.getHeader
  rw [fire_setHeaderCalls]

theorem fire_of_valid_code (t : Timer) (res : ServerResponse)
    (h : 100 ≤ res.statusCode ∧ res.statusCode ≤ 999) :
    t.fire res =
      { res with endCalls := res.endCalls ++ [Chunk.buffer (newBuffer t.responseBody)] } := by
  unfold Timer.fire ServerResponse.endWith
  rw [if_pos h]

/-- The header a matched and accepted rule leaves under a name that none of
its lines has. -/
theorem getHeader_not_named (rule : Rule) (res : ServerResponse)
    (before : List (JsString × JsString)) (key value name : JsString)
    (hcalls : res.setHeaderCalls =
      before ++ (key, value) :: (headerLines rule).filterMap lineHeader)
    (hkey : asciiLowerCase key = asciiLowerCase name)
    (hno : ∀ item ∈ headerLines rule,
      asciiLowerCase (trim (beforeColon item)) ≠ asciiLowerCase name) :
    res.getHeader name = some value :=
  getHeader_of_last res before _ key value name hcalls hkey
    (parsed_names (headerLines rule) (asciiLowerCase name) hno)

/-- The header a matched and accepted rule leaves under a name that a line of
its block has, when no later line has it. -/
theorem getHeader_named (res : ServerResponse) (head : List (JsString × JsString))
    (pre post : List JsString) (item name : JsString)
    (hcalls : res.setHeaderCalls = head ++ (pre ++ item :: post).filterMap lineHeader)
    (hname : asciiLowerCase (trim (beforeColon item)) = asciiLowerCase name)
    (hne : trim (beforeColon item) ≠ [])
    (hvalue : ':' ∉ afterColon item)
    (hlater : ∀ later ∈ post,
      asciiLowerCase (trim (beforeColon later)) ≠ asciiLowerCase name) :
    res.getHeader name = some (trim (afterColon item)) := by
  apply getHeader_of_last res (head ++ pre.filterMap lineHeader) (post.filterMap lineHeader)
    (trim (beforeColon item)) (trim (afterColon item)) name
  · rw [hcalls, List.filterMap_append, List.filterMap_cons, lineHeader_of_name item hne,
      takeWhile_of_no_colon _ hvalue, List.append_assoc]
  · exact hname
  · exact parsed_names post (asciiLowerCase name) hlater

/-! ## Rule matching -/

/-- C1: the rule selected by `global.mockSettings.find` is the first rule in
list order whose uri occurs in the full URL, whose method is the literal ALL or
equals the request method ignoring case, and whose active flag is set: it sits
at an index `i`, satisfies the condition, and no rule at a smaller index does;
no rule is selected exactly when no rule of the list satisfies the condition. -/
theorem findOne_selects_first_match (toUpperCase : JsString → JsString)
    (mockSettings : List Rule) (req : Request) :
    (∀ rule : Rule, findOne toUpperCase mockSettings req = some rule ↔
      ∃ i : Nat, mockSettings[i]? = some rule ∧ SpecMatches toUpperCase req rule ∧
        ∀ (j : Nat) (earlier : Rule), j < i → mockSettings[j]? = some earlier →
          ¬ SpecMatches toUpperCase req earlier) ∧
    (findOne toUpperCase mockSettings req = none ↔
      ∀ rule ∈ mockSettings, ¬ SpecMatches toUpperCase req rule) := by
  refine ⟨fun rule => ?_, findOne_eq_none_iff toUpperCase mockSettings req⟩
  unfold findOne
  rw [find?_eq_some_iff_index]
  simp only [ruleMatches_iff, ruleMatches_false_iff]

/-- Witness of C1: of the three rules, the first is switched off and the other
two match the sample request; the one at index 1 is selected. -/
theorem findOne_selects_first_match_witness :
    findOne asciiUpperCase [inactiveRule, sampleRule, markerRule] sampleRequest =
      some sampleRule ∧
    SpecMatches asciiUpperCase sampleRequest markerRule := by
  have hs : SpecMatches asciiUpperCase sampleRequest sampleRule :=
    (ruleMatches_iff asciiUpperCase sampleRequest sampleRule).mp (by decide)
  have hm : SpecMatches asciiUpperCase sampleRequest markerRule :=
    (ruleMatches_iff asciiUpperCase sampleRequest markerRule).mp (by decide)
  refine ⟨((findOne_selects_first_match asciiUpperCase [inactiveRule, sampleRule, markerRule]
    sampleRequest).1 sampleRule).mpr ⟨1, rfl, hs, ?_⟩, hm⟩
  intro j earlier hj hget hmatch
  have hj0 : j = 0 := by omega
  subst hj0
  have he : inactiveRule = earlier := Option.some.inj hget
  rw [← he] at hmatch
  exact absurd hmatch.2.2 (by decide)

/-- C2: the selected rule is never an inactive one (its active flag is the
string 1), and when every rule of the list is inactive no rule is selected and
the handler does what it does on the empty rule list: no header is set, no
timer is scheduled, the status is left alone. -/
theorem inactive_rule_never_selected (toUpperCase : JsString → JsString)
    (mockSettings : List Rule) (req : Request) :
    (∀ rule : Rule, findOne toUpperCase mockSettings req = some rule →
      rule.active = JsValue.string "1".toList) ∧
    ((∀ rule ∈ mockSettings, rule.active ≠ JsValue.string "1".toList) →
      findOne toUpperCase mockSettings req = none ∧
      onRequest toUpperCase mockSettings (World.start req) =
        onRequest toUpperCase [] (World.start req) ∧
      (onRequest toUpperCase mockSettings (World.start req)).timers = [] ∧
      (onRequest toUpperCase mockSettings
        (World.start req)).ctx.proxyToClientResponse.setHeaderCalls = [] ∧
      (onRequest toUpperCase mockSettings
        (World.start req)).ctx.proxyToClientResponse.statusCode = 200) := by
  constructor
  · intro rule h
    exact (findOne_matches toUpperCase mockSettings req rule h).2.2.2
  · intro hall
    have hnone : findOne toUpperCase mockSettings req = none := by
      rw [findOne_eq_none_iff]
      intro rule hr hm
      exact hall rule hr hm.2.2
    have hnil : findOne toUpperCase [] req = none := rfl
    refine ⟨hnone, ?_⟩
    by_cases hHost : req.headers.host = some livenessHost
    · rw [onRequest_liveness toUpperCase mockSettings req hHost,
        onRequest_liveness toUpperCase [] req hHost]
      exact ⟨rfl, rfl, rfl, rfl⟩
    · rw [onRequest_forward toUpperCase mockSettings req hHost hnone,
        onRequest_forward toUpperCase [] req hHost hnil]
      exact ⟨rfl, rfl, rfl, rfl⟩

/-- Witness of C2: the sample rule, switched off, is not selected for the
sample request. -/
theorem inactive_rule_never_selected_witness :
    (∀ rule ∈ [inactiveRule], rule.active ≠ JsValue.string "1".toList) ∧
    findOne asciiUpperCase [inactiveRule] sampleRequest = none ∧
    (onRequest asciiUpperCase [inactiveRule] (World.start sampleRequest)).timers = [] :=
  ⟨by decide,
   ((inactive_rule_never_selected asciiUpperCase [inactiveRule] sampleRequest).2
      (by decide)).1,
   ((inactive_rule_never_selected asciiUpperCase [inactiveRule] sampleRequest).2
      (by decide)).2.2.1⟩

/-! ## The liveness probe -/

/-- C3: on a request whose Host header is the sentinel 127.0.0.1:2018 the
handler ends the response with the body Mock Server is OK!, leaves the status
at the default 200, sets no header, schedules no timer, does not call the
forwarding callback, and its result does not depend on the rule list. -/
theorem liveness_probe_response (toUpperCase : JsString → JsString)
    (mockSettings : List Rule) (req : Request)
    (hHost : req.headers.host = some "127.0.0.1:2018".toList) :
    (onRequest toUpperCase mockSettings (World.start req)).ctx.proxyToClientResponse =
      { statusCode := 200, setHeaderCalls := [],
        endCalls := [Chunk.text "Mock Server is OK!".toList] } ∧
    (onRequest toUpperCase mockSettings (World.start req)).callbackCalls = 0 ∧
    (onRequest toUpperCase mockSettings (World.start req)).timers = [] ∧
    (onRequest toUpperCase mockSettings (World.start req)).ctx.rejectUnauthorized = none ∧
    (onRequest toUpperCase mockSettings (World.start req)).settled.getHeader
      "mock-data".toList = none ∧
    ∀ otherSettings : List Rule,
      onRequest toUpperCase otherSettings (World.start req) =
        onRequest toUpperCase mockSettings (World.start req) := by
  have h : req.headers.host = some livenessHost := hHost
  refine ⟨?_, ?_, ?_, ?_, ?_, ?_⟩
  · rw [onRequest_liveness toUpperCase mockSettings req h]
  · rw [onRequest_liveness toUpperCase mockSettings req h]
  · rw [onRequest_liveness toUpperCase mockSettings req h]
  · rw [onRequest_liveness toUpperCase mockSettings req h]
  · rw [onRequest_liveness toUpperCase mockSettings req h]
    rfl
  · intro otherSettings
    rw [onRequest_liveness toUpperCase mockSettings req h,
      onRequest_liveness toUpperCase otherSettings req h]

/-- Witness of C3: the probe request, with a rule in the list that matches its
URL and method. -/
theorem liveness_probe_response_witness :
    findOne asciiUpperCase [sampleRule] probeRequest = some sampleRule ∧
    (onRequest asciiUpperCase [sampleRule] (World.start probeRequest)).ctx.proxyToClientResponse =
      { statusCode := 200, setHeaderCalls := [],
        endCalls := [Chunk.text "Mock Server is OK!".toList] } :=
  ⟨by decide, (liveness_probe_response asciiUpperCase [sampleRule] probeRequest rfl).1⟩

/-! ## Forwarding -/

/-- C9: on a request whose Host header is not the sentinel and that no rule of
the list matches, the handler sets rejectUnauthorized to false, calls the
forwarding callback exactly once and leaves the client response as it was (no
status, no header, no body, no timer); this is so for every such request on
the empty list the rule store starts as. -/
theorem unmatched_request_forwarded (toUpperCase : JsString → JsString)
    (mockSettings : List Rule) (req : Request)
    (hHost : req.headers.host ≠ some "127.0.0.1:2018".toList) :
    ((∀ rule ∈ mockSettings, ¬ SpecMatches toUpperCase req rule) →
      (onRequest toUpperCase mockSettings (World.start req)).ctx.rejectUnauthorized =
        some false ∧
      (onRequest toUpperCase mockSettings (World.start req)).callbackCalls = 1 ∧
      (onRequest toUpperCase mockSettings (World.start req)).ctx.proxyToClientResponse =
        ServerResponse.fresh ∧
      (onRequest toUpperCase mockSettings (World.start req)).timers = [] ∧
      (onRequest toUpperCase mockSettings (World.start req)).settled.getHeader
        "mock-data".toList = none) ∧
    (onRequest toUpperCase initialMockSettings (World.start req)).ctx.rejectUnauthorized =
      some false ∧
    (onRequest toUpperCase initialMockSettings (World.start req)).callbackCalls = 1 ∧
    (onRequest toUpperCase initialMockSettings (World.start req)).ctx.proxyToClientResponse =
      ServerResponse.fresh ∧
    (onRequest toUpperCase initialMockSettings (World.start req)).timers = [] := by
  have h : req.headers.host ≠ some livenessHost := hHost
  have hnil : findOne toUpperCase initialMockSettings req = none := rfl
  refine ⟨?_, ?_, ?_, ?_, ?_⟩
  · intro hno
    have hnone := (findOne_eq_none_iff toUpperCase mockSettings req).mpr hno
    rw [onRequest_forward toUpperCase mockSettings req h hnone]
    exact ⟨rfl, rfl, rfl, rfl, rfl⟩
  all_goals rw [onRequest_forward toUpperCase initialMockSettings req h hnil]

/-- Witness of C9: a POST of the sample URL, which the sample rule (method
GET) does not match, is forwarded. -/
theorem unmatched_request_forwarded_witness :
    (∀ rule ∈ [sampleRule],
      ¬ SpecMatches asciiUpperCase { sampleRequest with method := "POST".toList } rule) ∧
    (onRequest asciiUpperCase [sampleRule]
      (World.start { sampleRequest with method := "POST".toList })).callbackCalls = 1 := by
  have hfind : findOne asciiUpperCase [sampleRule]
      { sampleRequest with method := "POST".toList } = none := by decide
  have hno := (findOne_eq_none_iff asciiUpperCase [sampleRule]
    { sampleRequest with method := "POST".toList }).mp hfind
  exact ⟨hno, ((unmatched_request_forwarded asciiUpperCase [sampleRule]
    { sampleRequest with method := "POST".toList } (by decide)).1 hno).2.1⟩

/-! ## The full URL -/

/-- C10: the full URL is the scheme, then ://, then the Host header, then the
request url, where the scheme is https exactly when the connection is
encrypted or the x-forwarded-proto header equals https, and http otherwise;
the Host header value and the url are copied unchanged (a request without a
Host header gets the text the template literal prints for it). -/
theorem getFullUrl_shape (request : Request) :
    getFullUrl request =
      (if request.connection.encrypted = true ∨
          request.headers.xForwardedProto = some "https".toList
        then "https".toList else "http".toList) ++ "://".toList ++
        templateString request.headers.host ++ request.url ∧
    ∀ host : JsString, request.headers.host = some host →
      getFullUrl request =
        (if request.connection.encrypted = true ∨
            request.headers.xForwardedProto = some "https".toList
          then "https".toList else "http".toList) ++ "://".toList ++ host ++ request.url := by
  have key : getFullUrl request =
      (if request.connection.encrypted = true ∨
          request.headers.xForwardedProto = some "https".toList
        then "https".toList else "http".toList) ++ "://".toList ++
        templateString request.headers.host ++ request.url := by
    unfold getFullUrl
    by_cases h : request.connection.encrypted = true ∨
        request.headers.xForwardedProto = some "https".toList
    · have hs : (request.connection.encrypted ||
          decide (request.headers.xForwardedProto = some "https".toList)) = true := by
        rcases h with h | h
        · rw [h]; rfl
        · rw [decide_eq_true h]; exact Bool.or_true _
      rw [if_pos h]
      simp only [hs, if_true]
      rfl
    · have hs : (request.connection.encrypted ||
          decide (request.headers.xForwardedProto = some "https".toList)) = false := by
        rw [Bool.or_eq_false_iff]
        exact ⟨by simpa using fun e => h (Or.inl e), decide_eq_false fun e => h (Or.inr e)⟩
      rw [if_neg h]
      simp only [hs, Bool.false_eq_true, if_false]
      rfl
  refine ⟨key, ?_⟩
  intro host hhost
  rw [key, hhost]
  rfl

/-- Witness of C10: the sample request, whose Host header is x.com. -/
theorem getFullUrl_shape_witness :
    getFullUrl sampleRequest = "http://x.com/api/user/42".toList :=
  ((getFullUrl_shape sampleRequest).2 "x.com".toList rfl).trans (by decide)

/-! ## The headers block of a rule -/

/-- C5, on the code: with the headers block of the example of the
specification the handler does not skip the line without a colon. It calls
setHeader with the trimmed line as the name, the runtime rejects that name
and throws, the exception leaves the handler, and so X-Empty is never set, no
timer is scheduled and the response is never ended. A line without a colon
that happens to be a token, such as X-Bare, is not skipped either: it becomes
a header with the empty value. -/
theorem colonless_line_not_skipped :
    findOne asciiUpperCase [specHeadersRule] sampleRequest = some specHeadersRule ∧
    headerLines specHeadersRule =
      ["X-Foo: bar".toList, "Bad Header Without Colon".toList, "X-Empty:".toList] ∧
    (onRequest asciiUpperCase [specHeadersRule]
        (World.start sampleRequest)).ctx.proxyToClientResponse.setHeaderCalls =
      [("mock-data".toList, "true".toList), ("content-type".toList, "application/json".toList),
       ("X-Foo".toList, "bar".toList)] ∧
    (onRequest asciiUpperCase [specHeadersRule] (World.start sampleRequest)).uncaught =
      some (Thrown.invalidHeaderName "Bad Header Without Colon".toList) ∧
    (onRequest asciiUpperCase [specHeadersRule] (World.start sampleRequest)).timers = [] ∧
    (onRequest asciiUpperCase [specHeadersRule] (World.start sampleRequest)).settled.endCalls
      = [] ∧
    (onRequest asciiUpperCase [specHeadersRule] (World.start sampleRequest)).settled.getHeader
      "X-Empty".toList = none ∧
    findOne asciiUpperCase [bareTokenRule] sampleRequest = some bareTokenRule ∧
    (onRequest asciiUpperCase [bareTokenRule] (World.start sampleRequest)).settled.getHeader
      "X-Bare".toList = some [] := by
  decide

/-- C6, as the code has it: the line `X Empty:` of a matched rule has a
non-empty trimmed name and nothing after its colon, yet no header of that name
is set: the runtime rejects the name, setHeader throws and the handler is
left. -/
theorem blank_in_name_sets_no_header :
    findOne asciiUpperCase [blankNameRule] sampleRequest = some blankNameRule ∧
    headerLines blankNameRule = ["X-Foo: bar".toList, "X Empty:".toList] ∧
    trim (beforeColon "X Empty:".toList) = "X Empty".toList ∧
    afterColon "X Empty:".toList = [] ∧
    (onRequest asciiUpperCase [blankNameRule] (World.start sampleRequest)).uncaught =
      some (Thrown.invalidHeaderName "X Empty".toList) ∧
    (onRequest asciiUpperCase [blankNameRule]
        (World.start sampleRequest)).ctx.proxyToClientResponse.setHeaderCalls =
      [("mock-data".toList, "true".toList), ("content-type".toList, "application/json".toList),
       ("X-Foo".toList, "bar".toList)] ∧
    (onRequest asciiUpperCase [blankNameRule] (World.start sampleRequest)).settled.getHeader
      "X Empty".toList = none := by
  decide

/-- C6, amended: let a request match a rule (and not be the liveness probe),
let the mime of the rule be an admissible header value, and let `item` be a
line of the headers block of the rule, after the lines `pre` and before the
lines `post`. If the text of `item` before its first colon is empty after
trimming (so for a line of white space only, the empty line included, and for a
line that starts with a colon), the handler sets no header for it: the
headers set and the exception thrown are those of the block without the line.
If the lines before it are accepted, its trimmed name is an HTTP token and the
text after its colon is empty or absent, the handler sets the header of that
trimmed name to the empty string, right after the headers of the lines before
it. -/
theorem empty_name_or_empty_value (toUpperCase : JsString → JsString)
    (mockSettings : List Rule) (req : Request) (rule : Rule)
    (pre post : List JsString) (item : JsString)
    (hHost : req.headers.host ≠ some "127.0.0.1:2018".toList)
    (hFind : findOne toUpperCase mockSettings req = some rule)
    (hMime : validHeaderValue rule.mime = true)
    (hLines : headerLines rule = pre ++ item :: post) :
    (trim (beforeColon item) = [] →
      (onRequest toUpperCase mockSettings
          (World.start req)).ctx.proxyToClientResponse.setHeaderCalls =
        [("mock-data".toList, "true".toList), ("content-type".toList, rule.mime)] ++
          acceptedHeaders (pre ++ post) ∧
      (onRequest toUpperCase mockSettings (World.start req)).uncaught =
        rejection (pre ++ post)) ∧
    ((∀ c ∈ item, isWhiteSpace c = true) → trim (beforeColon item) = []) ∧
    (item.head? = some ':' → trim (beforeColon item) = []) ∧
    ((∀ earlier ∈ pre, lineAccepted earlier = true) →
      validHeaderName (trim (beforeColon item)) = true →
      (':' ∉ item ∨ afterColon item = []) →
      ([("mock-data".toList, "true".toList), ("content-type".toList, rule.mime)] ++
          pre.filterMap lineHeader ++ [(trim (beforeColon item), [])]) <+:
        (onRequest toUpperCase mockSettings
          (World.start req)).ctx.proxyToClientResponse.setHeaderCalls) := by
  have h : req.headers.host ≠ some livenessHost := hHost
  rw [onRequest_mock toUpperCase mockSettings req rule h hFind hMime, hLines]
  refine ⟨?_, ?_, ?_, ?_⟩
  · intro hname
    have hskip := acceptedHeaders_skip pre post item (lineHeader_of_empty_name item hname)
    exact ⟨by rw [hskip.1], hskip.2⟩
  · intro hws
    apply trim_of_whiteSpace
    intro c hc
    exact hws c ((List.takeWhile_sublist _).subset hc)
  · intro hhead
    cases item with
    | nil => rfl
    | cons c cs =>
      have hc : c = ':' := by simpa using hhead
      subst hc
      rfl
  · intro hpre hname hvalue
    have hne : trim (beforeColon item) ≠ [] := by
      intro e
      rw [e] at hname
      exact absurd hname (by decide)
    have hafter : afterColon item = [] := by
      rcases hvalue with hv | hv
      · exact afterColon_of_no_colon item hv
      · exact hv
    have hline : lineHeader item = some (trim (beforeColon item), []) := by
      rw [lineHeader_of_name item hne, hafter]
      rfl
    have hvalid : (validHeaderName (trim (beforeColon item)) && validHeaderValue []) = true := by
      rw [hname]
      rfl
    refine ⟨acceptedHeaders post, ?_⟩
    show _ = [("mock-data".toList, "true".toList), ("content-type".toList, rule.mime)] ++
      acceptedHeaders (pre ++ item :: post)
    rw [acceptedHeaders_append pre (item :: post) hpre, acceptedHeaders_cons, hline]
    simp only [hvalid, if_true, List.append_assoc, List.singleton_append]

/-- Witness of C6: the block `X-Foo: bar`, a line of blanks, `X-Empty:`, on
the sample request. The line of blanks sets nothing, and `X-Empty:` sets
X-Empty to the empty string after X-Foo. -/
theorem empty_name_or_empty_value_witness :
    ((onRequest asciiUpperCase [blankLineRule]
        (World.start sampleRequest)).ctx.proxyToClientResponse.setHeaderCalls =
      [("mock-data".toList, "true".toList), ("content-type".toList, blankLineRule.mime)] ++
        acceptedHeaders (["X-Foo: bar".toList] ++ ["X-Empty:".toList]) ∧
     (onRequest asciiUpperCase [blankLineRule] (World.start sampleRequest)).uncaught =
        rejection (["X-Foo: bar".toList] ++ ["X-Empty:".toList])) ∧
    ([("mock-data".toList, "true".toList), ("content-type".toList, blankLineRule.mime)] ++
        ["X-Foo: bar".toList, "   ".toList].filterMap lineHeader ++
        [(trim (beforeColon "X-Empty:".toList), [])]) <+:
      (onRequest asciiUpperCase [blankLineRule]
        (World.start sampleRequest)).ctx.proxyToClientResponse.setHeaderCalls :=
  ⟨(empty_name_or_empty_value asciiUpperCase [blankLineRule] sampleRequest blankLineRule
      ["X-Foo: bar".toList] ["X-Empty:".toList] "   ".toList
      (by decide) (by decide) (by decide) (by decide)).1 (by decide),
   (empty_name_or_empty_value asciiUpperCase [blankLineRule] sampleRequest blankLineRule
      ["X-Foo: bar".toList, "   ".toList] [] "X-Empty:".toList
      (by decide) (by decide) (by decide) (by decide)).2.2.2
      (by decide) (by decide) (Or.inr (by decide))⟩

/-- C7, on the code: the line `Location: http://x.com/a` sets Location to
`http`, the text between the first colon and the second, and not to the whole
text after the first colon, which is `http://x.com/a`. -/
theorem value_cut_at_second_colon :
    headerItem ServerResponse.fresh "Location: http://x.com/a".toList =
      ServerResponse.fresh.setHeader "Location".toList "http".toList ∧
    trim (afterColon "Location: http://x.com/a".toList) = "http://x.com/a".toList ∧
    findOne asciiUpperCase [locationRule] sampleRequest = some locationRule ∧
    (onRequest asciiUpperCase [locationRule] (World.start sampleRequest)).settled.getHeader
      "Location".toList = some "http".toList ∧
    ServerResponse.fresh.setHeader "Location".toList "http".toList =
      Outcome.returned { ServerResponse.fresh with
        setHeaderCalls := [("Location".toList, "http".toList)] } := by
  decide

/-! ## The synthetic response -/

/-- C4, as the code has it: a rule whose headers block has the line
`mock-data: false` matches the sample request, the runtime accepts the line,
and the response is ended with the marker header at `false`. -/
theorem marker_header_overridden :
    sampleRequest.headers.host ≠ some livenessHost ∧
    findOne asciiUpperCase [markerRule] sampleRequest = some markerRule ∧
    (onRequest asciiUpperCase [markerRule]
        (World.start sampleRequest)).ctx.proxyToClientResponse.setHeaderCalls =
      [("mock-data".toList, "true".toList), ("content-type".toList, "application/json".toList),
       ("mock-data".toList, "false".toList)] ∧
    (onRequest asciiUpperCase [markerRule] (World.start sampleRequest)).uncaught = none ∧
    (onRequest asciiUpperCase [markerRule] (World.start sampleRequest)).settled.endCalls.length
      = 1 ∧
    (onRequest asciiUpperCase [markerRule] (World.start sampleRequest)).settled.getHeader
      "mock-data".toList = some "false".toList := by
  decide

/-- C4, amended: for a request that matches a rule and is not the liveness
probe, the first header the handler sets is mock-data = true. When the runtime
accepts the mime and every line of the headers block of the rule, the response
carries, once the timer has fired, mock-data = true provided no line of the
block has the name mock-data (trimmed, ignoring case); and when a line has
that name and no later line has it, the line is applied after the marker and
the response carries the value of that line instead (the trimmed text after
its colon, for a value without a further colon). With a status code in
100..999 that response has been ended exactly once. -/
theorem marker_header_unless_overridden (toUpperCase : JsString → JsString)
    (mockSettings : List Rule) (req : Request) (rule : Rule)
    (hHost : req.headers.host ≠ some "127.0.0.1:2018".toList)
    (hFind : findOne toUpperCase mockSettings req = some rule) :
    (onRequest toUpperCase mockSettings
        (World.start req)).ctx.proxyToClientResponse.setHeaderCalls.head? =
      some ("mock-data".toList, "true".toList) ∧
    (ruleAccepted rule = true →
      ((100 ≤ rule.code ∧ rule.code ≤ 999) →
        (onRequest toUpperCase mockSettings (World.start req)).settled.endCalls.length = 1) ∧
      ((∀ item ∈ headerLines rule,
          asciiLowerCase (trim (beforeColon item)) ≠ "mock-data".toList) →
        (onRequest toUpperCase mockSettings (World.start req)).settled.getHeader
          "mock-data".toList = some "true".toList) ∧
      (∀ (pre post : List JsString) (item : JsString),
        headerLines rule = pre ++ item :: post →
        asciiLowerCase (trim (beforeColon item)) = "mock-data".toList →
        ':' ∉ afterColon item →
        (∀ later ∈ post, asciiLowerCase (trim (beforeColon later)) ≠ "mock-data".toList) →
        (onRequest toUpperCase mockSettings (World.start req)).settled.getHeader
          "mock-data".toList = some (trim (afterColon item)))) := by
  have h : req.headers.host ≠ some livenessHost := hHost
  constructor
  · by_cases hmime : validHeaderValue rule.mime = true
    · rw [onRequest_mock toUpperCase mockSettings req rule h hFind hmime]
      rfl
    · rw [onRequest_mock_bad_mime toUpperCase mockSettings req rule h hFind
        (by simpa using hmime)]
      rfl
  · intro hacc
    rw [onRequest_mock_accepted toUpperCase mockSettings req rule h hFind hacc]
    refine ⟨?_, ?_, ?_⟩
    · intro hcode
      show (Timer.fire _ _).endCalls.length = 1
      rw [fire_of_valid_code _ _ hcode]
      rfl
    · intro hno
      show (Timer.fire _ _).getHeader _ = _
      rw [fire_getHeader]
      apply getHeader_of_last _ [] (("content-type".toList, rule.mime) ::
        (headerLines rule).filterMap lineHeader) "mock-data".toList "true".toList
      · rfl
      · rfl
      · intro call hcall
        rcases List.mem_cons.mp hcall with hc | hc
        · rw [hc]
          show asciiLowerCase "content-type".toList ≠ asciiLowerCase "mock-data".toList
          decide
        · exact parsed_names (headerLines rule) "mock-data".toList hno call hc
    · intro pre post item hlines hname hvalue hlater
      show (Timer.fire _ _).getHeader _ = _
      rw [fire_getHeader]
      have hne : trim (beforeColon item) ≠ [] := by
        intro e
        rw [e] at hname
        exact absurd hname (by decide)
      exact getHeader_named _
        [("mock-data".toList, "true".toList), ("content-type".toList, rule.mime)]
        pre post item "mock-data".toList (by rw [← hlines]) hname hne hvalue hlater

/-- Witness of C4: a rule whose block is `X-Foo: bar` and then `Mock-Data:
off`, on the sample request; the marker is overridden by the second line. -/
theorem marker_header_unless_overridden_witness :
    ruleAccepted markerLastRule = true ∧
    headerLines markerLastRule = ["X-Foo: bar".toList] ++ "Mock-Data: off".toList :: [] ∧
    (onRequest asciiUpperCase [markerLastRule] (World.start sampleRequest)).settled.getHeader
      "mock-data".toList = some (trim (afterColon "Mock-Data: off".toList)) ∧
    trim (afterColon "Mock-Data: off".toList) = "off".toList :=
  ⟨by decide, by decide,
   ((marker_header_unless_overridden asciiUpperCase [markerLastRule] sampleRequest
      markerLastRule (by decide) (by decide)).2 (by decide)).2.2
      ["X-Foo: bar".toList] [] "Mock-Data: off".toList (by decide) (by decide) (by decide)
      (by decide),
   by decide⟩

/-- C8, as the code has it: a rule with mime application/json whose headers
block has the line `Content-Type: text/plain` matches the sample request, the
runtime accepts the line, and the response is ended with the content type
text/plain. And a matching rule with the status code 0 gets its timer, but
`end` throws in it and the response is never ended. -/
theorem content_type_overridden :
    sampleRequest.headers.host ≠ some livenessHost ∧
    findOne asciiUpperCase [typedRule] sampleRequest = some typedRule ∧
    typedRule.mime = "application/json".toList ∧
    (onRequest asciiUpperCase [typedRule] (World.start sampleRequest)).uncaught = none ∧
    (onRequest asciiUpperCase [typedRule] (World.start sampleRequest)).settled.endCalls.length
      = 1 ∧
    (onRequest asciiUpperCase [typedRule] (World.start sampleRequest)).settled.getHeader
      "content-type".toList = some "text/plain".toList ∧
    findOne asciiUpperCase [zeroCodeRule] sampleRequest = some zeroCodeRule ∧
    (onRequest asciiUpperCase [zeroCodeRule] (World.start sampleRequest)).timers.length = 1 ∧
    (onRequest asciiUpperCase [zeroCodeRule] (World.start sampleRequest)).settled.endCalls
      = [] := by
  decide

/-- C8, amended: for a request that matches a rule and is not the liveness
probe, the status code of the response is the code of the rule, the handler
itself does not end the response, and the forwarding callback is not called.
When the runtime accepts the mime and every line of the headers block of the
rule, the handler schedules exactly one timer, with the delay of the rule;
with a status code in 100..999 that timer ends the response once, with the
bytes of the body of the rule; the content-type header is the mime of the rule
provided no line of the block has the name content-type (trimmed, ignoring
case), and when a line has that name and no later line has it, it is the
value of that line instead (the trimmed text after its colon, for a value
without a further colon). -/
theorem mock_response_fields (toUpperCase : JsString → JsString)
    (mockSettings : List Rule) (req : Request) (rule : Rule)
    (hHost : req.headers.host ≠ some "127.0.0.1:2018".toList)
    (hFind : findOne toUpperCase mockSettings req = some rule) :
    (onRequest toUpperCase mockSettings (World.start req)).ctx.proxyToClientResponse.statusCode
      = rule.code ∧
    (onRequest toUpperCase mockSettings (World.start req)).ctx.proxyToClientResponse.endCalls
      = [] ∧
    (onRequest toUpperCase mockSettings (World.start req)).callbackCalls = 0 ∧
    (onRequest toUpperCase mockSettings (World.start req)).ctx.rejectUnauthorized = none ∧
    (ruleAccepted rule = true →
      (onRequest toUpperCase mockSettings (World.start req)).timers =
        [{ delay := rule.delay, responseBody := rule.body }] ∧
      (onRequest toUpperCase mockSettings (World.start req)).uncaught = none ∧
      ((100 ≤ rule.code ∧ rule.code ≤ 999) →
        (onRequest toUpperCase mockSettings (World.start req)).settled.endCalls =
          [Chunk.buffer (newBuffer rule.body)] ∧
        (onRequest toUpperCase mockSettings (World.start req)).settled.statusCode =
          rule.code) ∧
      ((∀ item ∈ headerLines rule,
          asciiLowerCase (trim (beforeColon item)) ≠ "content-type".toList) →
        (onRequest toUpperCase mockSettings (World.start req)).settled.getHeader
          "content-type".toList = some rule.mime) ∧
      (∀ (pre post : List JsString) (item : JsString),
        headerLines rule = pre ++ item :: post →
        asciiLowerCase (trim (beforeColon item)) = "content-type".toList →
        ':' ∉ afterColon item →
        (∀ later ∈ post,
          asciiLowerCase (trim (beforeColon later)) ≠ "content-type".toList) →
        (onRequest toUpperCase mockSettings (World.start req)).settled.getHeader
          "content-type".toList = some (trim (afterColon item)))) := by
  have h : req.headers.host ≠ some livenessHost := hHost
  have hframe :
      (onRequest toUpperCase mockSettings
        (World.start req)).ctx.proxyToClientResponse.statusCode = rule.code ∧
      (onRequest toUpperCase mockSettings
        (World.start req)).ctx.proxyToClientResponse.endCalls = [] ∧
      (onRequest toUpperCase mockSettings (World.start req)).callbackCalls = 0 ∧
      (onRequest toUpperCase mockSettings (World.start req)).ctx.rejectUnauthorized
        = none := by
    by_cases hmime : validHeaderValue rule.mime = true
    · rw [onRequest_mock toUpperCase mockSettings req rule h hFind hmime]
      exact ⟨rfl, rfl, rfl, rfl⟩
    · rw [onRequest_mock_bad_mime toUpperCase mockSettings req rule h hFind
        (by simpa using hmime)]
      exact ⟨rfl, rfl, rfl, rfl⟩
  refine ⟨hframe.1, hframe.2.1, hframe.2.2.1, hframe.2.2.2, ?_⟩
  intro hacc
  rw [onRequest_mock_accepted toUpperCase mockSettings req rule h hFind hacc]
  refine ⟨rfl, rfl, ?_, ?_, ?_⟩
  · intro hcode
    show (Timer.fire _ _).endCalls = _ ∧ (Timer.fire _ _).statusCode = _
    rw [fire_of_valid_code _ _ hcode]
    exact ⟨rfl, rfl⟩
  · intro hno
    show (Timer.fire _ _).getHeader _ = _
    rw [fire_getHeader]
    exact getHeader_not_named rule _ [("mock-data".toList, "true".toList)]
      "content-type".toList rule.mime "content-type".toList rfl rfl hno
  · intro pre post item hlines hname hvalue hlater
    show (Timer.fire _ _).getHeader _ = _
    rw [fire_getHeader]
    have hne : trim (beforeColon item) ≠ [] := by
      intro e
      rw [e] at hname
      exact absurd hname (by decide)
    exact getHeader_named _
      [("mock-data".toList, "true".toList), ("content-type".toList, rule.mime)]
      pre post item "content-type".toList (by rw [← hlines]) hname hne hvalue hlater

/-- Witness of C8: a rule whose block names the content type in its first and
in its third line, on the sample request: one timer, one end with the bytes of
the body, and the content type of the third line. -/
theorem mock_response_fields_witness :
    ruleAccepted typedTwiceRule = true ∧
    (onRequest asciiUpperCase [typedTwiceRule] (World.start sampleRequest)).timers =
      [{ delay := typedTwiceRule.delay, responseBody := typedTwiceRule.body }] ∧
    (onRequest asciiUpperCase [typedTwiceRule] (World.start sampleRequest)).settled.endCalls =
      [Chunk.buffer (newBuffer typedTwiceRule.body)] ∧
    (onRequest asciiUpperCase [typedTwiceRule] (World.start sampleRequest)).settled.getHeader
      "content-type".toList = some (trim (afterColon "content-type: text/plain".toList)) ∧
    trim (afterColon "content-type: text/plain".toList) = "text/plain".toList :=
  ⟨by decide,
   ((mock_response_fields asciiUpperCase [typedTwiceRule] sampleRequest typedTwiceRule
      (by decide) (by decide)).2.2.2.2 (by decide)).1,
   (((mock_response_fields asciiUpperCase [typedTwiceRule] sampleRequest typedTwiceRule
      (by decide) (by decide)).2.2.2.2 (by decide)).2.2.1 (by decide)).1,
   ((mock_response_fields asciiUpperCase [typedTwiceRule] sampleRequest typedTwiceRule
      (by decide) (by decide)).2.2.2.2 (by decide)).2.2.2.2
      ["Content-Type: text/html".toList, "X-Foo: bar".toList] []
      "content-type: text/plain".toList (by decide) (by decide) (by decide) (by decide),
   by decide⟩

end Mocker
